import Mathlib

/-!
# Verification of the GlbToolsWeb atlas engine

Shallow embedding of the atlas packing, cross-channel rect reuse, UV
remapping and geometry merge engine of the repository (primarily
`scripts/atlas-cli.mjs` / `scripts/atlas-lib.mjs`, with the divergent
web-worker implementation `web/src/atlas-worker.js` embedded separately
where a claim cites it).  Real-number arithmetic of the source (JS
doubles) is modelled over `ℚ`; pixel sizes and counts over `ℕ`.  The
external MaxRects placement library and the pixel codec are abstracted
as parameters; everything written in the repository itself is embedded
directly.
-/

namespace GlbAtlas

/-- Source function `nextPow2` of `atlas-lib.mjs`: `let p = 1; while (p < n) p <<= 1; return p`.
The loop is embedded with explicit fuel; `n` units of fuel are always enough
because `p` doubles each step. -/
def pow2GrowLoop (n : ℕ) : ℕ → ℕ → ℕ
  | 0, p => p
  | fuel + 1, p => if p < n then pow2GrowLoop n fuel (p * 2) else p

def nextPow2 (n : ℕ) : ℕ := pow2GrowLoop n n 1

/-- Source function `nextPow2Ceil` of `atlas-lib.mjs` — textually the same loop as `nextPow2`. -/
def nextPow2Ceil (n : ℕ) : ℕ := pow2GrowLoop n n 1

/-- Source function `nearestPow2` of `atlas-lib.mjs`: `let p = 1; while (p * 2 <= n) p *= 2`. -/
def pow2FloorLoop (n : ℕ) : ℕ → ℕ → ℕ
  | 0, p => p
  | fuel + 1, p => if p * 2 ≤ n then pow2FloorLoop n fuel (p * 2) else p

def nearestPow2 (n : ℕ) : ℕ := pow2FloorLoop n n 1

/-- Source function `clampPow2(n, min, max)` of `atlas-lib.mjs`. -/
def clampPow2 (n lo hi : ℕ) : ℕ := max lo (min hi (nearestPow2 n))

/-- The `allowed` list of `suggestSizeBestFill`. -/
def allowedSizes (maxSize : ℕ) : List ℕ :=
  [256, 512, 1024, 2048, 4096].filter (fun v => v ≤ maxSize)

/-- The snap-down fold of `suggestSizeBestFill`:
`allowed.reduce((acc, v) => (v <= target ? v : acc), allowed[0])`. -/
def snapAllowed (maxSize t : ℕ) : ℕ :=
  (allowedSizes maxSize).foldl (fun acc v => if v ≤ t then v else acc)
    ((allowedSizes maxSize).headD 0)

/-- Source function `suggestSizeBestFill(matArea, maxMatArea, maxSize, srcW, srcH)` of
`atlas-lib.mjs` (the `best-fill` density-aware sizing heuristic). -/
def suggestSizeBestFill (matArea maxMatArea : ℚ) (maxSize srcW srcH : ℕ) : ℕ :=
  let base := nearestPow2 (min (min srcW srcH) maxSize)
  let rel : ℚ := if 0 < maxMatArea then matArea / maxMatArea else 0
  let target :=
    if (6 / 10 : ℚ) ≤ rel then max base 2048
    else if (35 / 100 : ℚ) ≤ rel then max base 1024
    else if (15 / 100 : ℚ) ≤ rel then max base 512
    else max base 256
  clampPow2 (snapAllowed maxSize target) ((allowedSizes maxSize).headD 0) maxSize

/-- The target-sizing steps of `atlasMap` (atlas-lib.mjs, entry build loop) in
the `best-fill` mode with area metadata available:
`targetSize = suggestSizeBestFill(...); targetSize = clampPow2(targetSize, 256, maxSize);
targetSize = Math.min(targetSize, nearestPow2(Math.max(1, Math.min(width, height))))`. -/
def targetSizeBestFill (matArea maxMatArea : ℚ) (maxSize width height : ℕ) : ℕ :=
  let t1 := suggestSizeBestFill matArea maxMatArea maxSize width height
  let t2 := clampPow2 t1 256 maxSize
  min t2 (nearestPow2 (max 1 (min width height)))

/-- The relativeArea bucket table exactly as the claim words it
(≥0.6→2048, ≥0.35→1024, ≥0.15→512, else 256); spec-side comparator. -/
def bucketSpec (matArea maxMatArea : ℚ) : ℕ :=
  let rel : ℚ := if 0 < maxMatArea then matArea / maxMatArea else 0
  if (6 / 10 : ℚ) ≤ rel then 2048
  else if (35 / 100 : ℚ) ≤ rel then 1024
  else if (15 / 100 : ℚ) ≤ rel then 512
  else 256

/-- Spec-side formulation of the amended sizing claim: the larger of the
bucket and the source's nearest power of two (capped at maxSize), snapped to
the allowed sizes, clamped, and finally capped by the source's nearest power
of two. -/
def targetSizeAmendedSpec (matArea maxMatArea : ℚ) (maxSize width height : ℕ) : ℕ :=
  let source := nearestPow2 (min (min width height) maxSize)
  let raw := max (bucketSpec matArea maxMatArea) source
  min (clampPow2 (snapAllowed maxSize raw) ((allowedSizes maxSize).headD 0) maxSize)
    (nearestPow2 (max 1 (min width height)))

/-! ## Normal-matrix computation (C4)

`atlas-lib.mjs` and `atlas-worker.js` each carry their own
`computeNormalMatrix`; matrices are flat column-major lists indexed as in the
source (`m[0]`, `m[4]`, ...). -/

def mget (m : List ℚ) (i : ℕ) : ℚ := m.getD i 0

/-- Determinant of the upper-left 3×3 block exactly as `computeNormalMatrix`
of `atlas-lib.mjs` computes it (`a01 = m[4]`, `a10 = m[1]`, ...). -/
def detUpper3Cli (m : List ℚ) : ℚ :=
  let a00 := mget m 0
  let a01 := mget m 4
  let a02 := mget m 8
  let a10 := mget m 1
  let a11 := mget m 5
  let a12 := mget m 9
  let a20 := mget m 2
  let a21 := mget m 6
  let a22 := mget m 10
  let b01 := a22 * a11 - a12 * a21
  let b11 := -a22 * a10 + a12 * a20
  let b21 := a21 * a10 - a11 * a20
  a00 * b01 + a01 * b11 + a02 * b21

/-- Source function `computeNormalMatrix` of `atlas-lib.mjs`: on a zero determinant it
substitutes `det = 1` (`if (!det) det = 1`) and still returns the
adjugate-transpose; it does NOT return the identity. Result is the flat 3×3
`[m00, m10, m20, m01, m11, m21, m02, m12, m22]` the source returns. -/
def computeNormalMatrixCli (m : List ℚ) : List ℚ :=
  let a00 := mget m 0
  let a01 := mget m 4
  let a02 := mget m 8
  let a10 := mget m 1
  let a11 := mget m 5
  let a12 := mget m 9
  let a20 := mget m 2
  let a21 := mget m 6
  let a22 := mget m 10
  let b01 := a22 * a11 - a12 * a21
  let b11 := -a22 * a10 + a12 * a20
  let b21 := a21 * a10 - a11 * a20
  let det := if detUpper3Cli m = 0 then 1 else detUpper3Cli m
  let invDet := 1 / det
  let m00 := b01 * invDet
  let m01 := (-a22 * a01 + a02 * a21) * invDet
  let m02 := (a12 * a01 - a02 * a11) * invDet
  let m10 := b11 * invDet
  let m11 := (a22 * a00 - a02 * a20) * invDet
  let m12 := (-a12 * a00 + a02 * a10) * invDet
  let m20 := b21 * invDet
  let m21 := (-a21 * a00 + a01 * a20) * invDet
  let m22 := (a11 * a00 - a01 * a10) * invDet
  [m00, m10, m20, m01, m11, m21, m02, m12, m22]

def identityMat3 : List ℚ := [1, 0, 0, 0, 1, 0, 0, 0, 1]

def identityMat4 : List ℚ := [1, 0, 0, 0, 0, 1, 0, 0, 0, 0, 1, 0, 0, 0, 0, 1]

/-- Determinant of the upper-left 3×3 block exactly as `computeNormalMatrix`
of `atlas-worker.js` computes it (`a01 = m[1]`, `a10 = m[4]`, ...). -/
def detUpper3Worker (m : List ℚ) : ℚ :=
  let a00 := mget m 0
  let a01 := mget m 1
  let a02 := mget m 2
  let a10 := mget m 4
  let a11 := mget m 5
  let a12 := mget m 6
  let a20 := mget m 8
  let a21 := mget m 9
  let a22 := mget m 10
  let b01 := a22 * a11 - a12 * a21
  let b11 := -a22 * a10 + a12 * a20
  let b21 := a21 * a10 - a11 * a20
  a00 * b01 + a01 * b11 + a02 * b21

/-- Source function `computeNormalMatrix` of `atlas-worker.js`: `if (!det) return identityMat4()`,
else the inverse scaled by `1/det`, written into a 4×4. -/
def computeNormalMatrixWorker (m : List ℚ) : List ℚ :=
  let a00 := mget m 0
  let a01 := mget m 1
  let a02 := mget m 2
  let a10 := mget m 4
  let a11 := mget m 5
  let a12 := mget m 6
  let a20 := mget m 8
  let a21 := mget m 9
  let a22 := mget m 10
  let b01 := a22 * a11 - a12 * a21
  let b11 := -a22 * a10 + a12 * a20
  let b21 := a21 * a10 - a11 * a20
  if detUpper3Worker m = 0 then identityMat4
  else
    let det := 1 / detUpper3Worker m
    [b01 * det, (-a22 * a01 + a02 * a21) * det, (a12 * a01 - a02 * a11) * det, 0,
     b11 * det, (a22 * a00 - a02 * a20) * det, (-a12 * a00 + a02 * a10) * det, 0,
     b21 * det, (-a21 * a00 + a01 * a20) * det, (a11 * a00 - a01 * a10) * det, 0,
     0, 0, 0, 1]

/-- Column-major 4×4 `diag(1, 1, 0, 1)`: a transform squashing z, whose
upper-left 3×3 block has zero determinant. -/
def mDegenerate : List ℚ := [1, 0, 0, 0, 0, 1, 0, 0, 0, 0, 0, 0, 0, 0, 0, 1]

/-! ## Atlas packing search (C5, C9)

`packIntoAtlas` wraps the external `MaxRectsPacker` library; the placement
engine is abstracted as a parameter `packFn : size → items → bins` (the
padding and packer options are captured inside `packFn`, as the source
captures them in the `MaxRectsPacker` constructor). Everything around it —
the size-doubling loop, the bin-count check, the single-bin downscale
search — is the repository's own code and is embedded directly. -/

structure PackItem where
  id : ℕ
  width : ℕ
  height : ℕ
  deriving DecidableEq

structure PlacedRect where
  x : ℕ
  y : ℕ
  width : ℕ
  height : ℕ
  deriving DecidableEq

structure Bin where
  width : ℕ
  height : ℕ
  rects : List PlacedRect
  deriving DecidableEq

/-- The `while (size <= maxSize)` loop of `packIntoAtlas` (atlas-lib.mjs),
with explicit fuel (the size doubles each pass, so `maxSize + 1` fuel always
reaches the exit). -/
def packLoop (packFn : ℕ → List PackItem → List Bin) (rects : List PackItem)
    (maxSize maxBins : ℕ) : ℕ → ℕ → Except String (ℕ × List Bin)
  | 0, _ => .error "Could not pack textures into atlas bins within max size."
  | fuel + 1, size =>
    if size ≤ maxSize then
      let bins := packFn size rects
      if bins.length ≤ maxBins then .ok (size, bins)
      else packLoop packFn rects maxSize maxBins fuel (size * 2)
    else .error "Could not pack textures into atlas bins within max size."

/-- Source function `packIntoAtlas(rects, maxSize, padding, maxBins)` of atlas-lib.mjs:
start at the next power of two above the largest single dimension (minimum
256), double until the bin count fits, fail past `maxSize`. -/
def packIntoAtlas (packFn : ℕ → List PackItem → List Bin) (rects : List PackItem)
    (maxSize maxBins : ℕ) : Except String (ℕ × List Bin) :=
  let maxDim := rects.foldl (fun m r => max m (max r.width r.height)) 1
  packLoop packFn rects maxSize maxBins (maxSize + 1) (nextPow2 (max maxDim 256))

/-- The rect scaling inside `canPack`:
`width: Math.max(1, Math.floor(r.width * scale))`. -/
def scaleRects (rects : List PackItem) (scale : ℚ) : List PackItem :=
  rects.map fun r =>
    { r with
      width := (max 1 ⌊(r.width : ℚ) * scale⌋).toNat,
      height := (max 1 ⌊(r.height : ℚ) * scale⌋).toNat }

/-- Source function `canPack(rects, maxSize, padding, maxBins, scale)` of atlas-lib.mjs:
scale the rects, try the packer, `catch { return false }`. -/
def canPack (packFn : ℕ → List PackItem → List Bin) (rects : List PackItem)
    (maxSize maxBins : ℕ) (scale : ℚ) : Bool :=
  match packIntoAtlas packFn (scaleRects rects scale) maxSize maxBins with
  | .ok (_, bins) => bins.length ≤ maxBins
  | .error _ => false

/-- Source function `resizePackInputToScale(packInput, scale)` of atlas-lib.mjs (the pixel
resize delegated to the codec is dropped; the geometric effect is
`Math.max(1, Math.floor(item.width * scale))` on both dimensions). -/
def resizePackInputToScale (items : List PackItem) (scale : ℚ) : List PackItem :=
  items.map fun it =>
    { it with
      width := (max 1 ⌊(it.width : ℚ) * scale⌋).toNat,
      height := (max 1 ⌊(it.height : ℚ) * scale⌋).toNat }

/-- The seeding loop of `findBestScaleForSingleBin`:
`while (high > 0.01 && !canPack(..., high)) high *= 0.5;` over an abstract
packability oracle `cp` (the source's partially-applied `canPack`). -/
def halveHigh (cp : ℚ → Bool) : ℕ → ℚ → ℚ
  | 0, high => high
  | fuel + 1, high =>
    if (1 : ℚ) / 100 < high ∧ ¬ cp high then halveHigh cp fuel (high * (1 / 2)) else high

/-- The 10-iteration refinement loop of `findBestScaleForSingleBin`. -/
def binSearchScale (cp : ℚ → Bool) : ℕ → ℚ → ℚ → ℚ → ℚ
  | 0, _, _, best => best
  | i + 1, low, high, best =>
    let mid := (low + high) / 2
    if cp mid then binSearchScale cp i mid high mid
    else binSearchScale cp i low mid best

/-- Source function `findBestScaleForSingleBin(rects, maxSize, padding)` of atlas-lib.mjs,
over the packability oracle: full-scale fast path, halving seed, hard
failure when even the first value at or below the 0.01 floor fails, then 10
binary-search iterations from `low = 0` keeping the last accepted `mid`. -/
def findBestScaleForSingleBin (cp : ℚ → Bool) : Except String ℚ :=
  if cp 1 then .ok 1
  else
    let high := halveHigh cp 64 1
    if high ≤ (1 : ℚ) / 100 ∧ ¬ cp high then
      .error "Could not fit into a single atlas even after aggressive downscale."
    else .ok (binSearchScale cp 10 0 high high)

/-- The packability-threshold oracle used in the C5 counterexample: any scale
at or below 1/2 packs, anything larger fails (the behaviour of `canPack` for,
e.g., one 2·maxSize-wide texture). -/
def thresholdOracle : ℚ → Bool := fun q => decide (q ≤ 1 / 2)

/-! ## UV remap formula (C6)

The remap loop of `atlasMap` (atlas-lib.mjs):
`dst[i] = u * scaleU + offsetU` with `scaleU = rect.width / aw`,
`offsetU = rect.x / aw`, and symmetrically for `v`. -/

def remapU (rectX rectW aw : ℕ) (u : ℚ) : ℚ :=
  u * ((rectW : ℚ) / (aw : ℚ)) + (rectX : ℚ) / (aw : ℚ)

def remapV (rectY rectH ah : ℕ) (v : ℚ) : ℚ :=
  v * ((rectH : ℚ) / (ah : ℚ)) + (rectY : ℚ) / (ah : ℚ)

/-! ## Primitive merger (C2, C7, C10)

`mergePrimitivesIntoOne(mesh, doc)` of atlas-lib.mjs (the worker version in
atlas-worker.js is line-for-line the same algorithm). Attribute accessors are
flattened value lists; a primitive is the record of its glTF attributes. -/

structure SrcPrim where
  position : Option (List ℚ)
  normal : Option (List ℚ)
  tangent : Option (List ℚ)
  uv : Option (List ℚ)
  indices : Option (List ℕ)
  material : Option ℕ
  deriving DecidableEq, Inhabited

structure MergeAcc where
  positions : List ℚ
  normals : List ℚ
  tangents : List ℚ
  uvs : List ℚ
  indices : List ℕ
  indexBase : ℕ
  deriving DecidableEq

def initMergeAcc : MergeAcc := ⟨[], [], [], [], [], 0⟩

/-- One iteration of the collect loop of `mergePrimitivesIntoOne`: a
primitive without POSITION is skipped (`if (!pos) continue;`); present vec
attributes are appended; indices are offset by the running vertex count, or
synthesized as a sequential range for non-indexed primitives. -/
def stepPrim (acc : MergeAcc) (p : SrcPrim) : MergeAcc :=
  match p.position with
  | none => acc
  | some pos =>
    let posCount := pos.length / 3
    { positions := acc.positions ++ pos
      normals := acc.normals ++ p.normal.getD []
      tangents := acc.tangents ++ p.tangent.getD []
      uvs := acc.uvs ++ p.uv.getD []
      indices :=
        match p.indices with
        | some idx => acc.indices ++ idx.map (fun i => i + acc.indexBase)
        | none => acc.indices ++ (List.range posCount).map (fun i => i + acc.indexBase)
      indexBase := acc.indexBase + posCount }

def mergeAccOf (prims : List SrcPrim) : MergeAcc := prims.foldl stepPrim initMergeAcc

/-- Source function `const indexComponent = indices.length > 65535 ? 5125 : 5123` —
5125 = UNSIGNED_INT (32-bit), 5123 = UNSIGNED_SHORT (16-bit). The source
selects by total INDEX count. -/
def mergeIndexComponent (prims : List SrcPrim) : ℕ :=
  if 65535 < (mergeAccOf prims).indices.length then 5125 else 5123

/-- The total vertex count of the contributing primitives: the final value of
the source's running `indexBase`. -/
def mergeVertexCount (prims : List SrcPrim) : ℕ := (mergeAccOf prims).indexBase

/-- Source function `mergePrimitivesIntoOne` on a mesh's primitive list.  A
`Uint16Array`/`Uint32Array` stores each element modulo 2^16 / 2^32, so the
stored index list carries that truncation.  Attributes are kept only when
their concatenated length matches the expected multiple of the vertex
count. -/
def mergePrimitivesIntoOne (prims : List SrcPrim) : List SrcPrim :=
  if prims.length ≤ 1 then prims
  else
    let acc := mergeAccOf prims
    if acc.positions.length = 0 ∨ acc.indices.length = 0 then prims
    else
      let stored :=
        if mergeIndexComponent prims = 5125 then acc.indices.map (fun i => i % 4294967296)
        else acc.indices.map (fun i => i % 65536)
      [{ position := some acc.positions
         normal := if acc.normals.length = acc.positions.length then some acc.normals else none
         tangent :=
           if acc.tangents.length = acc.positions.length / 3 * 4 then some acc.tangents else none
         uv := if acc.uvs.length = acc.positions.length / 3 * 2 then some acc.uvs else none
         indices := some stored
         material := (prims.headD default).material }]

/-- A small indexed triangle primitive (3 vertices). -/
def primSmallTri : SrcPrim :=
  { position := some [0, 0, 0, 1, 0, 0, 0, 1, 0]
    normal := none
    tangent := none
    uv := none
    indices := some [0, 1, 2]
    material := none }

/-! ## Input-defect handling (C7)

The texture half: the entry-build loop of `atlasMap` does
`const { width, height } = sizeOf(buffer); if (!width || !height) throw ...`.
`dims = none` models `sizeOf` failing or returning undefined fields. -/

structure TexData where
  name : String
  dims : Option (ℕ × ℕ)
  deriving DecidableEq

/-- The dimension check for one texture: hard error when the size cannot be
read or either dimension is falsy. -/
def readTexDims (t : TexData) : Except String (ℕ × ℕ) :=
  match t.dims with
  | none => .error "Cannot read dimensions for texture"
  | some (w, h) =>
    if w = 0 ∨ h = 0 then .error "Cannot read dimensions for texture" else .ok (w, h)

/-- The entry-build loop over the channel's textures: the first unreadable
texture aborts the whole channel pass (the thrown error propagates out of
`atlasMap`). -/
def readAllTexDims : List TexData → Except String (List (ℕ × ℕ))
  | [] => .ok []
  | t :: ts =>
    match readTexDims t with
    | .error e => .error e
    | .ok d =>
      match readAllTexDims ts with
      | .error e => .error e
      | .ok ds => .ok (d :: ds)

/-- A primitive with junk attributes but no POSITION. -/
def noPosPrim : SrcPrim :=
  { position := none
    normal := some [1, 2, 3]
    tangent := none
    uv := some [1, 2]
    indices := some [9]
    material := none }

/-! ## Cross-map rect reuse (C1)

The `reuseRects` branch of `atlasMap` (atlas-lib.mjs): the canonical
channel's rect list is replayed verbatim (`{...r, data: entry}`), resolving
each rect's material names against the document and looking up this
channel's texture entry; a missing entry falls back to a synthesized
solid-color image sized to the rect (pixel work, no geometry). -/

structure Material where
  name : String
  deriving DecidableEq, Inhabited

/-- Source function `mat.getName() || '(unnamed)'`. -/
def displayName (s : String) : String := if s = "" then "(unnamed)" else s

/-- Source function `findMaterialByName(name, materials)` of atlas-lib.mjs. -/
def findMaterialByName (name : String) (ms : List Material) : Option Material :=
  if name = "" then none
  else ms.find? (fun m => displayName m.name = name)

structure Entry where
  texture : Option String
  width : ℕ
  height : ℕ
  materials : List Material
  deriving DecidableEq, Inhabited

/-- Source function `findEntryForMaterial(materialName, entries)` of atlas-lib.mjs;
`materialName` is `r.materials?.[0]` and thus undefined (`none`) for an
empty material list. -/
def findEntryForMaterial (materialName : Option String) (entries : List Entry) :
    Option Entry :=
  match materialName with
  | none => none
  | some name =>
    if name = "" then none
    else entries.find? (fun e => e.materials.any (fun m => displayName m.name = name))

/-- A canonical-layout rect as recorded in `layoutInfo.atlases[0].rects`:
geometry plus the names of the materials that used it. -/
structure CanonRect where
  x : ℕ
  y : ℕ
  width : ℕ
  height : ℕ
  materials : List String
  deriving DecidableEq, Inhabited

/-- A rect of the reuse pass: `{...r, data: entry}`. -/
structure ReuseRect where
  x : ℕ
  y : ℕ
  width : ℕ
  height : ℕ
  materials : List String
  data : Entry
  deriving DecidableEq, Inhabited

/-- The loop body of the `reuseRects` branch for one canonical rect. -/
def reuseRectFor (allMats : List Material) (entries : List Entry) (r : CanonRect) :
    ReuseRect :=
  let resolvedMats := (r.materials.map (fun n => findMaterialByName n allMats)).filterMap id
  let entry :=
    match findEntryForMaterial r.materials.head? entries with
    | none =>
      { texture := none, width := r.width, height := r.height, materials := resolvedMats }
    | some e =>
      { e with materials := if resolvedMats.length ≠ 0 then resolvedMats else e.materials }
  { x := r.x, y := r.y, width := r.width, height := r.height,
    materials := r.materials, data := entry }

/-- The whole reuse pass: one output rect per canonical rect. -/
def reuseRectsForChannel (canonRects : List CanonRect) (entries : List Entry)
    (allMats : List Material) : List ReuseRect :=
  canonRects.map (reuseRectFor allMats entries)

/-- Demo canonical layout: two rects for materials "A" and "B". -/
def cDemo : List CanonRect :=
  [⟨0, 0, 256, 256, ["A"]⟩, ⟨256, 0, 128, 128, ["B"]⟩]

def msDemo : List Material := [⟨"A"⟩, ⟨"B"⟩]

/-- Demo channel entries: only material "A" has a texture in this channel. -/
def esDemo : List Entry := [⟨some "texA", 256, 256, [⟨"A"⟩]⟩]

/-! ## UV remap of a primitive and texture-transform baking (C8)

The per-primitive remap body of `atlasMap` (atlas-lib.mjs lines 880-935),
over a primitive's texcoord sets and the material's per-channel texture
info. `trig` supplies `Math.cos`/`Math.sin` of the transform rotation. -/

structure TexTransform where
  offsetU : ℚ
  offsetV : ℚ
  scaleU : ℚ
  scaleV : ℚ
  rotation : ℚ
  deriving DecidableEq

/-- The material's channel texture-info: texcoord index and the optional
`KHR_texture_transform` extension. -/
structure MatChanInfo where
  texCoord : ℕ
  transform : Option TexTransform
  deriving DecidableEq

/-- A primitive's texcoord attributes, positionally: entry `i` is
`TEXCOORD_i`. -/
structure PrimUV where
  tcs : List (Option (List ℚ))
  deriving DecidableEq

def getTC (p : PrimUV) (i : ℕ) : Option (List ℚ) := p.tcs.getD i none

def setTC (p : PrimUV) (i : ℕ) (v : List ℚ) : PrimUV :=
  ⟨(p.tcs ++ List.replicate (i + 1 - p.tcs.length) none).set i (some v)⟩

/-- Source function `nextTexcoordIndex(prim)`: one past the highest present TEXCOORD set. -/
def nextTexcoordIndex (p : PrimUV) : ℕ :=
  (List.range p.tcs.length).foldl
    (fun mx i => if (getTC p i).isSome then max mx (i + 1) else mx) 0

/-- Source function `bakeTextureTransformInPlace(arr, t)`: scale, rotate about the origin,
then offset, pairwise over the flat UV array. -/
def bakePairs (cosR sinR su sv ou ov : ℚ) : List ℚ → List ℚ
  | u :: v :: rest =>
    let u1 := u * su
    let v1 := v * sv
    (u1 * cosR - v1 * sinR + ou) :: (u1 * sinR + v1 * cosR + ov) ::
      bakePairs cosR sinR su sv ou ov rest
  | l => l

def bakeTextureTransform (trig : ℚ → ℚ × ℚ) (t : TexTransform) (arr : List ℚ) : List ℚ :=
  bakePairs (trig t.rotation).1 (trig t.rotation).2 t.scaleU t.scaleV t.offsetU t.offsetV arr

/-- The remap loop body: `dst[i] = u * scaleU + offsetU` pairwise. -/
def remapPairs (su sv ou ov : ℚ) : List ℚ → List ℚ
  | u :: v :: rest => (u * su + ou) :: (v * sv + ov) :: remapPairs su sv ou ov rest
  | l => l

/-- One run of the remap body on one primitive: clone the active UV set, bake
the texture transform into a freshly allocated set when present (clearing the
transform and repointing the info), apply the rect remap, write the result
into the active set and into TEXCOORD_0, and force the info to texcoord 0. -/
def remapPrimitive (trig : ℚ → ℚ × ℚ) (rect : PlacedRect) (aw ah : ℕ)
    (prim : PrimUV) (info : MatChanInfo) : PrimUV × MatChanInfo :=
  match getTC prim info.texCoord with
  | none => (prim, info)
  | some uvArr =>
    let scaleU : ℚ := (rect.width : ℚ) / (aw : ℚ)
    let scaleV : ℚ := (rect.height : ℚ) / (ah : ℚ)
    let offsetU : ℚ := (rect.x : ℚ) / (aw : ℚ)
    let offsetV : ℚ := (rect.y : ℚ) / (ah : ℚ)
    match info.transform with
    | some t =>
      let prim1 := setTC prim info.texCoord uvArr
      let newSet := nextTexcoordIndex prim1
      let baked := bakeTextureTransform trig t uvArr
      let prim2 := setTC prim1 newSet baked
      let dst := remapPairs scaleU scaleV offsetU offsetV baked
      let prim3 := setTC prim2 newSet dst
      let prim4 := setTC prim3 0 dst
      (prim4, { texCoord := 0, transform := none })
    | none =>
      let prim1 := setTC prim info.texCoord uvArr
      let dst := remapPairs scaleU scaleV offsetU offsetV uvArr
      let prim2 := setTC prim1 info.texCoord dst
      let prim3 := setTC prim2 0 dst
      (prim3, { texCoord := 0, transform := info.transform })

/-- The trig oracle for the concrete runs (rotation is unused: no transform). -/
def trigDemo : ℚ → ℚ × ℚ := fun _ => (1, 0)

def rectDemo : PlacedRect := ⟨256, 0, 256, 256⟩

/-! ## Bin shape invariants (C9) -/

/-- The forced-square step of `atlasMap`, applied to every bin in order and
carrying the running `atlasSize`:
`const squareSize = nextPow2Ceil(Math.max(bin.width || atlasSize,
bin.height || atlasSize, atlasSize)); bin.width = squareSize;
bin.height = squareSize; atlasSize = squareSize;`. -/
def forceSquareStep (st : List Bin × ℕ) (bin : Bin) : List Bin × ℕ :=
  let sq := nextPow2Ceil (max (max (if bin.width = 0 then st.2 else bin.width)
      (if bin.height = 0 then st.2 else bin.height)) st.2)
  (st.1 ++ [{ bin with width := sq, height := sq }], sq)

def forceSquare (bins : List Bin) (atlasSize : ℕ) : List Bin :=
  (bins.foldl forceSquareStep ([], atlasSize)).1

/-- The reuse-branch bin construction of `atlasMap`:
`atlasSize = nextPow2Ceil(Math.max(s, 256))` for the larger canonical
dimension `s`, and a single square bin of that size. -/
def reuseBins (s : ℕ) (rcts : List PlacedRect) : ℕ × List Bin :=
  (nextPow2Ceil (max s 256),
   [⟨nextPow2Ceil (max s 256), nextPow2Ceil (max s 256), rcts⟩])

/-- A trivial placement engine satisfying the MaxRects contract: one bin of
the requested size. -/
def packFnDemo : ℕ → List PackItem → List Bin := fun size _ => [⟨size, size, []⟩]

/-! ## Properties of the sizing primitives -/

theorem foldl_snap_mem (t : ℕ) : ∀ (l : List ℕ) (i : ℕ),
    l.foldl (fun acc v => if v ≤ t then v else acc) i = i ∨
    l.foldl (fun acc v => if v ≤ t then v else acc) i ∈ l := by
  intro l
  induction l with
  | nil => intro i; exact Or.inl rfl
  | cons a l ih =>
    intro i
    simp only [List.foldl_cons]
    by_cases ha : a ≤ t
    · rw [if_pos ha]
      rcases ih a with h1 | h1
      · exact Or.inr (by rw [h1]; exact List.mem_cons_self a l)
      · exact Or.inr (List.mem_cons_of_mem a h1)
    · rw [if_neg ha]
      rcases ih i with h1 | h1
      · exact Or.inl h1
      · exact Or.inr (List.mem_cons_of_mem a h1)

theorem mem_allowedSizes {M x : ℕ} (hx : x ∈ allowedSizes M) :
    (x = 256 ∨ x = 512 ∨ x = 1024 ∨ x = 2048 ∨ x = 4096) ∧ x ≤ M := by
  simp only [allowedSizes, List.mem_filter, List.mem_cons,
    List.not_mem_nil, or_false, decide_eq_true_eq] at hx
  tauto

theorem headD_allowedSizes {M : ℕ} (h : 256 ≤ M) : (allowedSizes M).headD 0 = 256 := by
  simp [allowedSizes, List.filter_cons, h]

theorem snapAllowed_mem {M : ℕ} (h : 256 ≤ M) (t : ℕ) :
    snapAllowed M t ∈ allowedSizes M := by
  have h256 : 256 ∈ allowedSizes M := by simp [allowedSizes, h]
  rw [snapAllowed]
  rcases foldl_snap_mem t (allowedSizes M) ((allowedSizes M).headD 0) with h1 | h1
  · rw [h1, headD_allowedSizes h]; exact h256
  · exact h1

theorem clampPow2_snap {M : ℕ} (h : 256 ≤ M) (t lo : ℕ) (hlo : lo ≤ 256) :
    clampPow2 (snapAllowed M t) lo M = snapAllowed M t := by
  obtain ⟨hvals, hle⟩ := mem_allowedSizes (snapAllowed_mem h t)
  have hfix : nearestPow2 (snapAllowed M t) = snapAllowed M t := by
    rcases hvals with h1 | h1 | h1 | h1 | h1 <;> rw [h1] <;> decide
  rw [clampPow2, hfix]
  have h256 : 256 ≤ snapAllowed M t := by
    rcases hvals with h1 | h1 | h1 | h1 | h1 <;> omega
  omega

/-- C3 (counterexample): the claim "the target never exceeds the bucket value"
is false. With area metadata present, `relativeArea = 0` (bucket 256) and a
4096×4096 source at `maxSize = 4096`, the best-fill sizing returns 4096, far
above the 256 bucket: the bucket acts as a floor, not a cap. -/
theorem c3_texture_sizer_counterexample :
    targetSizeBestFill 0 1 4096 4096 4096 = 4096 ∧ bucketSpec 0 1 = 256 ∧ 256 < 4096 := by
  refine ⟨?_, ?_, by norm_num⟩
  · norm_num [targetSizeBestFill, suggestSizeBestFill, bucketSpec]
    decide
  · norm_num [bucketSpec]

/-- C3 (amended): for `256 ≤ maxSize`, the chosen target resolution equals the
larger of the relativeArea bucket and the source's nearest power of two
(capped at maxSize), snapped down to the nearest allowed power of two and
clamped to `[256, maxSize]`, then finally capped by the source's nearest
power of two; in particular the source is never upscaled and the target never
exceeds maxSize — but it may exceed the bucket. -/
theorem c3_texture_sizer_amended (matArea maxMatArea : ℚ) (maxSize width height : ℕ)
    (h : 256 ≤ maxSize) :
    targetSizeBestFill matArea maxMatArea maxSize width height
      = targetSizeAmendedSpec matArea maxMatArea maxSize width height ∧
    targetSizeBestFill matArea maxMatArea maxSize width height
      ≤ nearestPow2 (max 1 (min width height)) ∧
    targetSizeBestFill matArea maxMatArea maxSize width height ≤ maxSize := by
  simp only [targetSizeBestFill, suggestSizeBestFill, targetSizeAmendedSpec, bucketSpec]
  rw [headD_allowedSizes h]
  refine ⟨?_, ?_, ?_⟩
  · rw [clampPow2_snap h _ 256 le_rfl, clampPow2_snap h _ 256 le_rfl,
      clampPow2_snap h _ 256 le_rfl]
    split_ifs <;> rw [Nat.max_comm]
  · rw [clampPow2_snap h _ 256 le_rfl, clampPow2_snap h _ 256 le_rfl]
    exact Nat.min_le_right _ _
  · rw [clampPow2_snap h _ 256 le_rfl, clampPow2_snap h _ 256 le_rfl]
    exact le_trans (Nat.min_le_left _ _) (mem_allowedSizes (snapAllowed_mem h _)).2

/-- C3 witness: the amended sizing theorem instantiated at a concrete texture
(no area, 300×300 source, maxSize 4096). -/
theorem c3_texture_sizer_witness :
    256 ≤ 4096 ∧
    targetSizeBestFill 0 1 4096 300 300 = targetSizeAmendedSpec 0 1 4096 300 300 ∧
    targetSizeBestFill 0 1 4096 300 300 ≤ nearestPow2 (max 1 (min 300 300)) :=
  ⟨by norm_num, (c3_texture_sizer_amended 0 1 4096 300 300 (by norm_num)).1,
    (c3_texture_sizer_amended 0 1 4096 300 300 (by norm_num)).2.1⟩

/-- C4 (counterexample): on a zero-determinant transform the CLI
`computeNormalMatrix` does NOT fall back to the identity matrix — it
substitutes det = 1 and returns the adjugate-transpose, here
`[0,0,0, 0,0,0, 0,0,1]`. -/
theorem c4_normal_matrix_counterexample :
    detUpper3Cli mDegenerate = 0 ∧
    computeNormalMatrixCli mDegenerate = [0, 0, 0, 0, 0, 0, 0, 0, 1] ∧
    computeNormalMatrixCli mDegenerate ≠ identityMat3 := by
  have hdet : detUpper3Cli mDegenerate = 0 := by
    norm_num [detUpper3Cli, mget, mDegenerate]
  have hval : computeNormalMatrixCli mDegenerate = [0, 0, 0, 0, 0, 0, 0, 0, 1] := by
    simp only [computeNormalMatrixCli]
    rw [if_pos hdet]
    norm_num [mget, mDegenerate]
  refine ⟨hdet, hval, ?_⟩
  rw [hval]
  simp [identityMat3]

/-- C4 (amended): the worker implementation of `computeNormalMatrix` does fall
back to the identity matrix whenever the upper-left 3×3 determinant is zero;
the degenerate case is handled locally (a value is returned, no error path
exists). The CLI implementation instead substitutes det = 1 (see the
counterexample). -/
theorem c4_normal_matrix_amended (m : List ℚ) (h : detUpper3Worker m = 0) :
    computeNormalMatrixWorker m = identityMat4 := by
  rw [computeNormalMatrixWorker]
  simp only [h, if_pos]

/-- C4 witness: the worker fallback at the concrete degenerate transform. -/
theorem c4_normal_matrix_witness :
    detUpper3Worker mDegenerate = 0 ∧ computeNormalMatrixWorker mDegenerate = identityMat4 := by
  have h : detUpper3Worker mDegenerate = 0 := by
    norm_num [detUpper3Worker, mget, mDegenerate]
  exact ⟨h, c4_normal_matrix_amended mDegenerate h⟩

/-! ### Unfolding lemmas for the scale search -/

theorem halveHigh_step (cp : ℚ → Bool) (fuel : ℕ) (high : ℚ)
    (h : (1 : ℚ) / 100 < high ∧ ¬ cp high) :
    halveHigh cp (fuel + 1) high = halveHigh cp fuel (high * (1 / 2)) := by
  rw [halveHigh, if_pos h]

theorem halveHigh_stop (cp : ℚ → Bool) (fuel : ℕ) (high : ℚ)
    (h : ¬ ((1 : ℚ) / 100 < high ∧ ¬ cp high)) :
    halveHigh cp (fuel + 1) high = high := by
  rw [halveHigh, if_neg h]

theorem binSearchScale_pos (cp : ℚ → Bool) (i : ℕ) (low high best : ℚ)
    (h : cp ((low + high) / 2)) :
    binSearchScale cp (i + 1) low high best
      = binSearchScale cp i ((low + high) / 2) high ((low + high) / 2) := by
  rw [binSearchScale, if_pos h]

/-! ### Behavioural invariants of the scale search -/

theorem halveHigh_reaches (cp : ℚ → Bool) : ∀ (fuel : ℕ) (high : ℚ),
    high ≤ 1 / 100 * 2 ^ fuel →
    halveHigh cp fuel high ≤ 1 / 100 ∨ cp (halveHigh cp fuel high) = true := by
  intro fuel
  induction fuel with
  | zero =>
    intro high h
    rw [halveHigh]
    left
    simpa using h
  | succ n ih =>
    intro high h
    rw [halveHigh]
    split_ifs with hcond
    · apply ih
      rw [pow_succ] at h
      linarith
    · rcases not_and_or.mp hcond with h1 | h1
      · left; linarith [not_lt.mp h1]
      · right; simpa using h1

theorem halveHigh_pos (cp : ℚ → Bool) : ∀ (fuel : ℕ) (high : ℚ),
    0 < high → 0 < halveHigh cp fuel high := by
  intro fuel
  induction fuel with
  | zero => intro high h; rw [halveHigh]; exact h
  | succ n ih =>
    intro high h
    rw [halveHigh]
    split_ifs with hcond
    · exact ih _ (by linarith)
    · exact h

theorem halveHigh_le_one (cp : ℚ → Bool) : ∀ (fuel : ℕ) (high : ℚ),
    high ≤ 1 → halveHigh cp fuel high ≤ 1 := by
  intro fuel
  induction fuel with
  | zero => intro high h; rw [halveHigh]; exact h
  | succ n ih =>
    intro high h
    rw [halveHigh]
    split_ifs with hcond
    · exact ih _ (by linarith [hcond.1])
    · exact h

theorem binSearchScale_inv (cp : ℚ → Bool) : ∀ (n : ℕ) (low high best : ℚ),
    0 ≤ low → low < high → high ≤ 1 → 0 < best → best ≤ 1 → cp best = true →
    cp (binSearchScale cp n low high best) = true ∧
    0 < binSearchScale cp n low high best ∧ binSearchScale cp n low high best ≤ 1 := by
  intro n
  induction n with
  | zero =>
    intro low high best _ _ _ hbp hb1 hcb
    rw [binSearchScale]
    exact ⟨hcb, hbp, hb1⟩
  | succ n ih =>
    intro low high best h0 hlh hh1 hbp hb1 hcb
    rw [binSearchScale]
    split_ifs with hmid
    · exact ih _ _ _ (by linarith) (by linarith) hh1 (by linarith) (by linarith)
        (by simpa using hmid)
    · exact ih _ _ _ h0 (by linarith) (by linarith) hbp hb1 hcb

theorem thresholdOracle_iff (q : ℚ) : thresholdOracle q = true ↔ q ≤ 1 / 2 := by
  simp [thresholdOracle]

/-- C5 (counterexample): the search does NOT return the largest succeeding
scale found, and the refinement does not run between the last-failing and
last-succeeding bounds. For the threshold oracle, the halving seed finds
scale 1/2 succeeding, yet the 10 refinement iterations run on `[0, 1/2]` and
return `1023/2048 < 1/2`. -/
theorem c5_scale_search_counterexample :
    findBestScaleForSingleBin thresholdOracle = .ok (1023 / 2048) ∧
    halveHigh thresholdOracle 64 1 = 1 / 2 ∧
    thresholdOracle (1 / 2) = true ∧
    (1023 / 2048 : ℚ) < 1 / 2 := by
  have hcp := thresholdOracle_iff
  have hh : halveHigh thresholdOracle 64 1 = 1 * (1 / 2) := by
    have e1 := halveHigh_step thresholdOracle 63 1
      ⟨by norm_num, by rw [hcp]; norm_num⟩
    have e2 := halveHigh_stop thresholdOracle 62 (1 * (1 / 2))
      (by rw [not_and_or, not_not, hcp]; right; norm_num)
    exact e1.trans e2
  refine ⟨?_, by rw [hh]; norm_num, by rw [hcp], by norm_num⟩
  rw [findBestScaleForSingleBin, if_neg (by rw [hcp]; norm_num)]
  rw [hh]
  rw [if_neg (by rw [not_and_or, hcp]; left; norm_num)]
  rw [show ((1 : ℚ) * (1 / 2)) = 1 / 2 from by norm_num]
  rw [show (10 : ℕ) = 9 + 1 from rfl,
    binSearchScale_pos thresholdOracle 9 0 (1 / 2) _ (by rw [hcp]; norm_num),
    show ((0 : ℚ) + 1 / 2) / 2 = 1 / 4 from by norm_num]
  rw [show (9 : ℕ) = 8 + 1 from rfl,
    binSearchScale_pos thresholdOracle 8 (1 / 4) (1 / 2) _ (by rw [hcp]; norm_num),
    show ((1 / 4 : ℚ) + 1 / 2) / 2 = 3 / 8 from by norm_num]
  rw [show (8 : ℕ) = 7 + 1 from rfl,
    binSearchScale_pos thresholdOracle 7 (3 / 8) (1 / 2) _ (by rw [hcp]; norm_num),
    show ((3 / 8 : ℚ) + 1 / 2) / 2 = 7 / 16 from by norm_num]
  rw [show (7 : ℕ) = 6 + 1 from rfl,
    binSearchScale_pos thresholdOracle 6 (7 / 16) (1 / 2) _ (by rw [hcp]; norm_num),
    show ((7 / 16 : ℚ) + 1 / 2) / 2 = 15 / 32 from by norm_num]
  rw [show (6 : ℕ) = 5 + 1 from rfl,
    binSearchScale_pos thresholdOracle 5 (15 / 32) (1 / 2) _ (by rw [hcp]; norm_num),
    show ((15 / 32 : ℚ) + 1 / 2) / 2 = 31 / 64 from by norm_num]
  rw [show (5 : ℕ) = 4 + 1 from rfl,
    binSearchScale_pos thresholdOracle 4 (31 / 64) (1 / 2) _ (by rw [hcp]; norm_num),
    show ((31 / 64 : ℚ) + 1 / 2) / 2 = 63 / 128 from by norm_num]
  rw [show (4 : ℕ) = 3 + 1 from rfl,
    binSearchScale_pos thresholdOracle 3 (63 / 128) (1 / 2) _ (by rw [hcp]; norm_num),
    show ((63 / 128 : ℚ) + 1 / 2) / 2 = 127 / 256 from by norm_num]
  rw [show (3 : ℕ) = 2 + 1 from rfl,
    binSearchScale_pos thresholdOracle 2 (127 / 256) (1 / 2) _ (by rw [hcp]; norm_num),
    show ((127 / 256 : ℚ) + 1 / 2) / 2 = 255 / 512 from by norm_num]
  rw [show (2 : ℕ) = 1 + 1 from rfl,
    binSearchScale_pos thresholdOracle 1 (255 / 512) (1 / 2) _ (by rw [hcp]; norm_num),
    show ((255 / 512 : ℚ) + 1 / 2) / 2 = 511 / 1024 from by norm_num]
  rw [show (1 : ℕ) = 0 + 1 from rfl,
    binSearchScale_pos thresholdOracle 0 (511 / 1024) (1 / 2) _ (by rw [hcp]; norm_num),
    show ((511 / 1024 : ℚ) + 1 / 2) / 2 = 1023 / 2048 from by norm_num]
  rw [binSearchScale]

/-- C5 (amended): whenever the single-bin search returns a scale, that scale
packs (the oracle accepts it) and lies in `(0, 1]`; the refinement runs its
10 iterations between low bound 0 and the seeded upper bound and keeps the
most recently accepted mid (not necessarily the largest succeeding scale);
the hard failure fires only when no halved scale down to and including the
first value at or below the 0.01 floor packs; the returned scale is applied
to every rectangle with a floor of one pixel. -/
theorem c5_scale_search_amended (cp : ℚ → Bool) (s : ℚ)
    (h : findBestScaleForSingleBin cp = .ok s) :
    cp s = true ∧ 0 < s ∧ s ≤ 1 ∧
    ∀ (items : List PackItem) (it : PackItem),
      it ∈ resizePackInputToScale items s → 1 ≤ it.width ∧ 1 ≤ it.height := by
  have hresize : ∀ (t : ℚ) (items : List PackItem) (it : PackItem),
      it ∈ resizePackInputToScale items t → 1 ≤ it.width ∧ 1 ≤ it.height := by
    intro t items it hmem
    simp only [resizePackInputToScale, List.mem_map] at hmem
    obtain ⟨r, -, rfl⟩ := hmem
    constructor
    · show 1 ≤ (max 1 ⌊(r.width : ℚ) * t⌋).toNat
      generalize ⌊(r.width : ℚ) * t⌋ = z
      omega
    · show 1 ≤ (max 1 ⌊(r.height : ℚ) * t⌋).toNat
      generalize ⌊(r.height : ℚ) * t⌋ = z
      omega
  simp only [findBestScaleForSingleBin] at h
  split_ifs at h with h1 h2
  · injection h with h'
    subst h'
    exact ⟨by simpa using h1, by norm_num, le_rfl, hresize 1⟩
  · injection h with h'
    have hpos : 0 < halveHigh cp 64 1 := halveHigh_pos cp 64 1 (by norm_num)
    have hle1 : halveHigh cp 64 1 ≤ 1 := halveHigh_le_one cp 64 1 le_rfl
    have hcphi : cp (halveHigh cp 64 1) = true := by
      rcases halveHigh_reaches cp 64 1 (by norm_num) with hle | hcp
      · rcases not_and_or.mp h2 with h3 | h3
        · exact absurd hle h3
        · simpa using h3
      · exact hcp
    obtain ⟨hc, hp, hl⟩ :=
      binSearchScale_inv cp 10 0 (halveHigh cp 64 1) (halveHigh cp 64 1)
        le_rfl hpos hle1 hpos hle1 hcphi
    exact ⟨h' ▸ hc, h' ▸ hp, h' ▸ hl, hresize s⟩

/-- C5 witness: the amended theorem at the always-packing oracle, where the
search returns scale 1. -/
theorem c5_scale_search_witness :
    findBestScaleForSingleBin (fun _ => true) = .ok 1 ∧
    (fun _ : ℚ => true) 1 = true ∧ (0 : ℚ) < 1 ∧ (1 : ℚ) ≤ 1 := by
  have h : findBestScaleForSingleBin (fun _ => true) = .ok 1 := by
    rw [findBestScaleForSingleBin, if_pos rfl]
  obtain ⟨hc, hp, hl, -⟩ := c5_scale_search_amended (fun _ => true) 1 h
  exact ⟨h, hc, hp, hl⟩

/-- C6 (counterexample): the claimed containment fails for vertices whose
source UV lies outside `[0,1]`: with rect `{x:256, w:256}` in a 1024-wide
atlas and `u = 2`, the remapped value `3/4` exceeds the rect's right edge
`512/1024` by 256 pixels — far beyond the 2-pixel padding tolerance
(`2/1024`). -/
theorem c6_uv_remap_counterexample :
    remapU 256 256 1024 2 = 3 / 4 ∧
    ((256 : ℚ) + 256) / 1024 + 2 / 1024 < 3 / 4 := by
  constructor
  · norm_num [remapU]
  · norm_num

/-- C6 (amended): for every vertex whose (possibly transform-baked) UV lies
in `[0,1]²`, and every rect contained in the atlas, the remapped coordinates
lie within the rect's normalized bounds exactly — no padding tolerance is
needed; outside `[0,1]` the containment can fail. -/
theorem c6_uv_remap_amended (rx rw aw ry rh ah : ℕ) (u v : ℚ)
    (hu0 : 0 ≤ u) (hu1 : u ≤ 1) (hv0 : 0 ≤ v) (hv1 : v ≤ 1)
    (hw : rx + rw ≤ aw) (hh : ry + rh ≤ ah) (haw : 0 < aw) (hah : 0 < ah) :
    (rx : ℚ) / aw ≤ remapU rx rw aw u ∧ remapU rx rw aw u ≤ ((rx : ℚ) + rw) / aw ∧
    (ry : ℚ) / ah ≤ remapV ry rh ah v ∧ remapV ry rh ah v ≤ ((ry : ℚ) + rh) / ah := by
  have hawq : (0 : ℚ) < aw := by exact_mod_cast haw
  have hahq : (0 : ℚ) < ah := by exact_mod_cast hah
  have hrw : (0 : ℚ) ≤ (rw : ℚ) := Nat.cast_nonneg rw
  have hrh : (0 : ℚ) ≤ (rh : ℚ) := Nat.cast_nonneg rh
  have hu : 0 ≤ u * rw := mul_nonneg hu0 hrw
  have hv : 0 ≤ v * rh := mul_nonneg hv0 hrh
  have hu' : u * rw ≤ rw := by nlinarith
  have hv' : v * rh ≤ rh := by nlinarith
  have e1 : remapU rx rw aw u = (u * rw + rx) / aw := by rw [remapU]; ring
  have e2 : remapV ry rh ah v = (v * rh + ry) / ah := by rw [remapV]; ring
  refine ⟨?_, ?_, ?_, ?_⟩
  · rw [e1]; exact div_le_div_of_nonneg_right (by linarith) hawq.le
  · rw [e1]; exact div_le_div_of_nonneg_right (by linarith) hawq.le
  · rw [e2]; exact div_le_div_of_nonneg_right (by linarith) hahq.le
  · rw [e2]; exact div_le_div_of_nonneg_right (by linarith) hahq.le

/-- C6 witness: the amended containment at a concrete in-range vertex
`(1/2, 1/2)` of the rect `{x:256, y:0, w:256, h:256}` in a 1024×1024 atlas. -/
theorem c6_uv_remap_witness :
    (0 : ℚ) ≤ 1 / 2 ∧ (1 / 2 : ℚ) ≤ 1 ∧
    (256 : ℚ) / 1024 ≤ remapU 256 256 1024 (1 / 2) ∧
    remapU 256 256 1024 (1 / 2) ≤ ((256 : ℚ) + 256) / 1024 :=
  ⟨by norm_num, by norm_num,
    (c6_uv_remap_amended 256 256 1024 0 256 1024 (1 / 2) (1 / 2)
      (by norm_num) (by norm_num) (by norm_num) (by norm_num)
      (by norm_num) (by norm_num) (by norm_num) (by norm_num)).1,
    (c6_uv_remap_amended 256 256 1024 0 256 1024 (1 / 2) (1 / 2)
      (by norm_num) (by norm_num) (by norm_num) (by norm_num)
      (by norm_num) (by norm_num) (by norm_num) (by norm_num)).2.1⟩

theorem stepPrim_skip (acc : MergeAcc) (p : SrcPrim) (h : p.position = none) :
    stepPrim acc p = acc := by
  simp [stepPrim, h]

/-- C10: merging a mesh with at most one primitive is a no-op — the primitive
list (and with it every attribute, index accessor and material) is returned
unchanged. -/
theorem c10_merge_noop (prims : List SrcPrim) (h : prims.length ≤ 1) :
    mergePrimitivesIntoOne prims = prims := by
  rw [mergePrimitivesIntoOne, if_pos h]

/-- C2 (code bug): the index element type is selected by total INDEX count
(`indices.length > 65535`), not by total vertex count. A mesh holding a
70000-vertex primitive that references only 3 indices plus a small triangle
has 70003 vertices (> 65535) but only 6 merged indices, so the code picks the
16-bit type 5123 — and the `Uint16Array` then truncates the index values
`69999, 70000, 70001, 70002` to `4463, 4464, 4465, 4466`, corrupting the
mesh. The claim's criterion (vertex count) is the correct one. -/
theorem c2_index_width_code_bug (pos : List ℚ) (hlen : pos.length = 210000) :
    mergeVertexCount [⟨some pos, none, none, none, some [0, 1, 69999], none⟩, primSmallTri]
      = 70003 ∧
    65535 < 70003 ∧
    mergeIndexComponent [⟨some pos, none, none, none, some [0, 1, 69999], none⟩, primSmallTri]
      = 5123 ∧
    ((mergePrimitivesIntoOne
        [⟨some pos, none, none, none, some [0, 1, 69999], none⟩, primSmallTri]).headD
          default).indices
      = some [0, 1, 4463, 4464, 4465, 4466] := by
  have hacc : mergeAccOf [⟨some pos, none, none, none, some [0, 1, 69999], none⟩, primSmallTri]
      = { positions := pos ++ [0, 0, 0, 1, 0, 0, 0, 1, 0]
          normals := []
          tangents := []
          uvs := []
          indices := [0, 1, 69999, 70000, 70001, 70002]
          indexBase := 70003 } := by
    simp only [mergeAccOf, List.foldl_cons, List.foldl_nil, stepPrim, initMergeAcc,
      primSmallTri, hlen, Option.getD_none,
      List.map_cons, List.map_nil, List.append_nil, List.nil_append,
      List.length_cons, List.length_nil]
    norm_num
  have hcomp : mergeIndexComponent
      [⟨some pos, none, none, none, some [0, 1, 69999], none⟩, primSmallTri] = 5123 := by
    rw [mergeIndexComponent, hacc]
    norm_num
  refine ⟨?_, by norm_num, hcomp, ?_⟩
  · rw [mergeVertexCount, hacc]
  · rw [mergePrimitivesIntoOne, if_neg (by norm_num)]
    simp only [hacc, hcomp]
    rw [if_neg (by simp [List.length_append, hlen])]
    norm_num

/-- C2 witness: the code-bug theorem at the concrete 70000-vertex position
buffer. -/
theorem c2_index_width_witness :
    (List.replicate 210000 (0 : ℚ)).length = 210000 ∧
    mergeVertexCount
      [⟨some (List.replicate 210000 (0 : ℚ)), none, none, none, some [0, 1, 69999], none⟩,
        primSmallTri] = 70003 ∧
    mergeIndexComponent
      [⟨some (List.replicate 210000 (0 : ℚ)), none, none, none, some [0, 1, 69999], none⟩,
        primSmallTri] = 5123 := by
  have h : (List.replicate 210000 (0 : ℚ)).length = 210000 := by
    rw [List.length_replicate]
  obtain ⟨h1, -, h3, -⟩ := c2_index_width_code_bug (List.replicate 210000 0) h
  exact ⟨h, h1, h3⟩

/-- C10 witness: a concrete one-primitive mesh is left untouched. -/
theorem c10_merge_noop_witness :
    ([⟨some [0, 0, 0], none, none, none, some [0], some 3⟩] : List SrcPrim).length ≤ 1 ∧
    mergePrimitivesIntoOne [⟨some [0, 0, 0], none, none, none, some [0], some 3⟩]
      = [⟨some [0, 0, 0], none, none, none, some [0], some 3⟩] :=
  ⟨by simp, c10_merge_noop _ (by simp)⟩

/-- C7 (counterexample): a primitive missing POSITION is NOT surfaced as a
hard failure — the merger silently skips it (`if (!pos) continue;`): merging
a mesh containing the defective primitive yields exactly the same merged
primitive as the mesh without it, and returns normally. -/
theorem c7_input_defect_counterexample :
    mergePrimitivesIntoOne [noPosPrim, primSmallTri, primSmallTri]
      = mergePrimitivesIntoOne [primSmallTri, primSmallTri] ∧
    (mergePrimitivesIntoOne [noPosPrim, primSmallTri, primSmallTri]).length = 1 := by
  have h0 : stepPrim initMergeAcc noPosPrim = initMergeAcc := stepPrim_skip _ _ rfl
  have h1 : mergeAccOf [noPosPrim, primSmallTri, primSmallTri]
      = mergeAccOf [primSmallTri, primSmallTri] := by
    simp only [mergeAccOf, List.foldl_cons, h0]
  have hval : mergeAccOf [primSmallTri, primSmallTri]
      = { positions := [0, 0, 0, 1, 0, 0, 0, 1, 0] ++ [0, 0, 0, 1, 0, 0, 0, 1, 0]
          normals := []
          tangents := []
          uvs := []
          indices := [0, 1, 2, 3, 4, 5]
          indexBase := 6 } := by
    simp only [mergeAccOf, List.foldl_cons, List.foldl_nil, stepPrim, initMergeAcc,
      primSmallTri, Option.getD_none, List.map_cons, List.map_nil, List.append_nil,
      List.nil_append, List.length_cons, List.length_nil]
    norm_num
  have hcomp3 : mergeIndexComponent [noPosPrim, primSmallTri, primSmallTri] = 5123 := by
    rw [mergeIndexComponent, h1, hval]
    norm_num
  have hcomp2 : mergeIndexComponent [primSmallTri, primSmallTri] = 5123 := by
    rw [mergeIndexComponent, hval]
    norm_num
  have e3 : mergePrimitivesIntoOne [noPosPrim, primSmallTri, primSmallTri]
      = [{ position := some ([0, 0, 0, 1, 0, 0, 0, 1, 0] ++ [0, 0, 0, 1, 0, 0, 0, 1, 0])
           normal := none
           tangent := none
           uv := none
           indices := some [0, 1, 2, 3, 4, 5]
           material := none }] := by
    rw [mergePrimitivesIntoOne, if_neg (by norm_num)]
    simp only [h1, hval, hcomp3]
    rw [if_neg (by norm_num)]
    norm_num [noPosPrim]
  have e2 : mergePrimitivesIntoOne [primSmallTri, primSmallTri]
      = [{ position := some ([0, 0, 0, 1, 0, 0, 0, 1, 0] ++ [0, 0, 0, 1, 0, 0, 0, 1, 0])
           normal := none
           tangent := none
           uv := none
           indices := some [0, 1, 2, 3, 4, 5]
           material := none }] := by
    rw [mergePrimitivesIntoOne, if_neg (by norm_num)]
    simp only [hval, hcomp2]
    rw [if_neg (by norm_num)]
    norm_num [primSmallTri]
  exact ⟨e3.trans e2.symm, by rw [e3]; rfl⟩

/-- C7 (amended): an unreadable texture size aborts the channel pass with a
hard error (never skipped, never retried); but a primitive missing POSITION
is silently skipped by the merger — the collect step leaves the accumulator
untouched and no error is raised. -/
theorem c7_input_defects_amended (ts : List TexData) (t : TexData) (hmem : t ∈ ts)
    (hbad : ∃ e0, readTexDims t = .error e0) :
    (∃ e, readAllTexDims ts = .error e) ∧
    (∀ (acc : MergeAcc) (p : SrcPrim), p.position = none → stepPrim acc p = acc) := by
  refine ⟨?_, fun acc p hp => stepPrim_skip acc p hp⟩
  induction ts with
  | nil => cases hmem
  | cons a ts ih =>
    rcases List.mem_cons.mp hmem with rfl | hmem'
    · obtain ⟨e0, he0⟩ := hbad
      exact ⟨e0, by rw [readAllTexDims, he0]⟩
    · match ha : readTexDims a with
      | .error e => exact ⟨e, by rw [readAllTexDims, ha]⟩
      | .ok d =>
        obtain ⟨e, he⟩ := ih hmem'
        exact ⟨e, by rw [readAllTexDims, ha, he]⟩

/-- C7 witness: the amended theorem at a one-texture channel whose texture
has unreadable dimensions. -/
theorem c7_input_defects_witness :
    (⟨"bad", none⟩ : TexData) ∈ [(⟨"bad", none⟩ : TexData)] ∧
    (∃ e, readAllTexDims [⟨"bad", none⟩] = .error e) ∧
    stepPrim initMergeAcc noPosPrim = initMergeAcc := by
  have h := c7_input_defects_amended [⟨"bad", none⟩] ⟨"bad", none⟩ (by simp)
    ⟨"Cannot read dimensions for texture", rfl⟩
  exact ⟨by simp, h.1, h.2 initMergeAcc noPosPrim rfl⟩

theorem displayName_ne_empty (s : String) : displayName s ≠ "" := by
  rw [displayName]
  split_ifs with h
  · decide
  · exact h

theorem reuseRectFor_x (a : List Material) (e : List Entry) (r : CanonRect) :
    (reuseRectFor a e r).x = r.x := rfl

theorem reuseRectFor_y (a : List Material) (e : List Entry) (r : CanonRect) :
    (reuseRectFor a e r).y = r.y := rfl

theorem reuseRectFor_width (a : List Material) (e : List Entry) (r : CanonRect) :
    (reuseRectFor a e r).width = r.width := rfl

theorem reuseRectFor_height (a : List Material) (e : List Entry) (r : CanonRect) :
    (reuseRectFor a e r).height = r.height := rfl

theorem findMaterialByName_sound {name : String} {ms : List Material} {mat : Material}
    (h : findMaterialByName name ms = some mat) :
    mat ∈ ms ∧ displayName mat.name = name := by
  rw [findMaterialByName] at h
  split_ifs at h
  exact ⟨List.mem_of_find?_eq_some h, by simpa using List.find?_some h⟩

theorem findMaterialByName_self (ms : List Material) (mat : Material) (hm : mat ∈ ms)
    (hinj : ∀ m₁ ∈ ms, ∀ m₂ ∈ ms, displayName m₁.name = displayName m₂.name → m₁ = m₂) :
    findMaterialByName (displayName mat.name) ms = some mat := by
  rw [findMaterialByName, if_neg (displayName_ne_empty _)]
  cases hf : ms.find? (fun m => displayName m.name = displayName mat.name) with
  | none =>
    have := List.find?_eq_none.mp hf mat hm
    simp at this
  | some m' =>
    have h1 := List.find?_some hf
    have h2 := List.mem_of_find?_eq_some hf
    rw [hinj m' h2 mat hm (by simpa using h1)]

/-- Under the document-consistency assumption that every entry's materials
come from the document's material list, the reuse rect's resolved material
list is exactly the name-resolution of the canonical rect's names. -/
theorem reuseRectFor_materials (allMats : List Material) (entries : List Entry)
    (r : CanonRect) (hsub : ∀ e ∈ entries, ∀ m ∈ e.materials, m ∈ allMats) :
    (reuseRectFor allMats entries r).data.materials
      = (r.materials.map (fun n => findMaterialByName n allMats)).filterMap id := by
  rw [reuseRectFor]
  cases hfe : findEntryForMaterial r.materials.head? entries with
  | none => simp only [hfe]
  | some e =>
    simp only [hfe]
    rcases hh : r.materials.head? with - | n0
    · rw [hh] at hfe
      exact absurd hfe (by rw [findEntryForMaterial]; simp)
    · rw [hh] at hfe
      rw [findEntryForMaterial] at hfe
      split_ifs at hfe with hemp
      obtain ⟨m, hmmem, hmname⟩ := by
        have := List.find?_some hfe
        simpa using this
      have hmall : m ∈ allMats := hsub e (List.mem_of_find?_eq_some hfe) m hmmem
      have hfind : ∃ m', findMaterialByName n0 allMats = some m' := by
        rw [findMaterialByName, if_neg hemp]
        cases hf : allMats.find? (fun mm => displayName mm.name = n0) with
        | none =>
          have := List.find?_eq_none.mp hf m hmall
          simp [hmname] at this
        | some m' => exact ⟨m', rfl⟩
      obtain ⟨m', hm'⟩ := hfind
      have hn0mem : n0 ∈ r.materials := List.mem_of_mem_head? (Option.mem_def.mpr hh)
      have hmem' :
          m' ∈ (r.materials.map (fun n => findMaterialByName n allMats)).filterMap id := by
        simp only [List.mem_filterMap, List.mem_map, id]
        exact ⟨some m', ⟨n0, hn0mem, hm'⟩, rfl⟩
      have hne :
          ((r.materials.map (fun n => findMaterialByName n allMats)).filterMap id).length
            ≠ 0 :=
        Nat.pos_iff_ne_zero.mp (List.length_pos.mpr (List.ne_nil_of_mem hmem'))
      rw [if_pos hne]

theorem getD_map_lt {α β : Type _} (f : α → β) :
    ∀ (l : List α) (i : ℕ), i < l.length → ∀ (d : β) (d' : α),
      (l.map f).getD i d = f (l.getD i d') := by
  intro l
  induction l with
  | nil => intro i h; simp at h
  | cons a l ih =>
    intro i h d d'
    cases i with
    | zero => simp [List.getD]
    | succ n =>
      have hn : n < l.length := by simpa using h
      simpa [List.getD] using ih n hn d d'

/-- C1: the rect layout produced by the cross-map reuse pass for a
non-canonical channel is positionally identical to the canonical layout
handed to it — same rect count, identical (x, y, width, height) at every
position — and, provided material names are unique in the document and each
name appears in at most one canonical rect (as the canonical packing
guarantees), every material is mapped to at most one reuse rect, located at
the same position (hence the same geometry) as its canonical rect. -/
theorem c1_reuse_layout_identity (canonRects : List CanonRect) (entries : List Entry)
    (allMats : List Material)
    (hdisj : ∀ (n : String) (i j : ℕ), i < canonRects.length → j < canonRects.length →
      n ∈ (canonRects.getD i default).materials →
      n ∈ (canonRects.getD j default).materials → i = j)
    (hsub : ∀ e ∈ entries, ∀ m ∈ e.materials, m ∈ allMats)
    (hinj : ∀ m₁ ∈ allMats, ∀ m₂ ∈ allMats,
      displayName m₁.name = displayName m₂.name → m₁ = m₂) :
    (reuseRectsForChannel canonRects entries allMats).length = canonRects.length ∧
    (∀ i, i < canonRects.length →
      ((reuseRectsForChannel canonRects entries allMats).getD i default).x
          = (canonRects.getD i default).x ∧
      ((reuseRectsForChannel canonRects entries allMats).getD i default).y
          = (canonRects.getD i default).y ∧
      ((reuseRectsForChannel canonRects entries allMats).getD i default).width
          = (canonRects.getD i default).width ∧
      ((reuseRectsForChannel canonRects entries allMats).getD i default).height
          = (canonRects.getD i default).height) ∧
    (∀ (mat : Material) (i j : ℕ), i < canonRects.length → j < canonRects.length →
      mat ∈ ((reuseRectsForChannel canonRects entries allMats).getD i default).data.materials →
      mat ∈ ((reuseRectsForChannel canonRects entries allMats).getD j default).data.materials →
      i = j) ∧
    (∀ (mat : Material), mat ∈ allMats → ∀ i, i < canonRects.length →
      displayName mat.name ∈ (canonRects.getD i default).materials →
      mat ∈ ((reuseRectsForChannel canonRects entries allMats).getD i
        default).data.materials) := by
  have hget : ∀ i, i < canonRects.length →
      (reuseRectsForChannel canonRects entries allMats).getD i default
        = reuseRectFor allMats entries (canonRects.getD i default) := by
    intro i hi
    exact getD_map_lt (reuseRectFor allMats entries) canonRects i hi default default
  have hmats : ∀ (mat : Material) (i : ℕ), i < canonRects.length →
      mat ∈ ((reuseRectsForChannel canonRects entries allMats).getD i
        default).data.materials →
      displayName mat.name ∈ (canonRects.getD i default).materials := by
    intro mat i hi hmem
    rw [hget i hi, reuseRectFor_materials allMats entries _ hsub] at hmem
    simp only [List.mem_filterMap, List.mem_map, id] at hmem
    obtain ⟨o, ⟨n, hn, ho⟩, rfl⟩ := hmem
    obtain ⟨-, hname⟩ := findMaterialByName_sound ho
    rwa [hname]
  refine ⟨by simp [reuseRectsForChannel], ?_, ?_, ?_⟩
  · intro i hi
    rw [hget i hi, reuseRectFor_x, reuseRectFor_y, reuseRectFor_width, reuseRectFor_height]
    exact ⟨rfl, rfl, rfl, rfl⟩
  · intro mat i j hi hj hmi hmj
    exact hdisj (displayName mat.name) i j hi hj (hmats mat i hi hmi) (hmats mat j hj hmj)
  · intro mat hmat i hi hname
    rw [hget i hi, reuseRectFor_materials allMats entries _ hsub]
    simp only [List.mem_filterMap, List.mem_map, id]
    exact ⟨some mat, ⟨displayName mat.name, hname,
      findMaterialByName_self allMats mat hmat hinj⟩, rfl⟩

/-- C1 witness: the reuse-layout theorem at the concrete two-rect canonical
layout (one entry present, one fallback). -/
theorem c1_reuse_layout_witness :
    (reuseRectsForChannel cDemo esDemo msDemo).length = 2 ∧
    ((reuseRectsForChannel cDemo esDemo msDemo).getD 1 default).x = 256 ∧
    ((reuseRectsForChannel cDemo esDemo msDemo).getD 1 default).width = 128 := by
  have hdisj : ∀ (n : String) (i j : ℕ), i < cDemo.length → j < cDemo.length →
      n ∈ (cDemo.getD i default).materials → n ∈ (cDemo.getD j default).materials →
      i = j := by
    intro n i j hi hj h1 h2
    simp only [cDemo, List.length_cons, List.length_nil] at hi hj
    interval_cases i <;> interval_cases j <;> simp_all [cDemo]
  have hsub : ∀ e ∈ esDemo, ∀ m ∈ e.materials, m ∈ msDemo := by
    intro e he m hm
    simp only [esDemo, List.mem_cons, List.not_mem_nil, or_false] at he
    subst he
    simp only [List.mem_cons, List.not_mem_nil, or_false] at hm
    simp [msDemo, hm]
  have hinj : ∀ m₁ ∈ msDemo, ∀ m₂ ∈ msDemo,
      displayName m₁.name = displayName m₂.name → m₁ = m₂ := by
    intro m₁ h1 m₂ h2 h
    simp only [msDemo, List.mem_cons, List.not_mem_nil, or_false] at h1 h2
    rcases h1 with rfl | rfl <;> rcases h2 with rfl | rfl <;> simp_all [displayName]
  obtain ⟨hlen, hgeom, -, -⟩ := c1_reuse_layout_identity cDemo esDemo msDemo hdisj hsub hinj
  obtain ⟨hx, -, hw, -⟩ := hgeom 1 (by simp [cDemo])
  refine ⟨by rw [hlen]; rfl, by rw [hx]; rfl, by rw [hw]; rfl⟩

/-! ### List update lemmas -/

theorem getD_set_self {α : Type _} :
    ∀ (l : List α) (i : ℕ) (a d : α), i < l.length → (l.set i a).getD i d = a := by
  intro l
  induction l with
  | nil => intro i a d h; simp at h
  | cons x l ih =>
    intro i a d h
    cases i with
    | zero => rfl
    | succ n =>
      have hn : n < l.length := by simpa using h
      simpa [List.getD_cons_succ] using ih n a d hn

theorem getD_set_ne {α : Type _} :
    ∀ (l : List α) (i j : ℕ) (a d : α), j ≠ i → (l.set i a).getD j d = l.getD j d := by
  intro l
  induction l with
  | nil => intro i j a d _; rfl
  | cons x l ih =>
    intro i j a d hj
    cases i with
    | zero =>
      cases j with
      | zero => exact absurd rfl hj
      | succ m => rfl
    | succ n =>
      cases j with
      | zero => rfl
      | succ m =>
        simpa [List.getD_cons_succ] using ih n m a d (fun h => hj (by rw [h]))

theorem setTC_of_lt (p : PrimUV) (i : ℕ) (v : List ℚ) (h : i < p.tcs.length) :
    setTC p i v = ⟨p.tcs.set i (some v)⟩ := by
  rw [setTC, show i + 1 - p.tcs.length = 0 from by omega, List.replicate_zero,
    List.append_nil]

theorem getTC_setTC_self (p : PrimUV) (i : ℕ) (v : List ℚ) (h : i < p.tcs.length) :
    getTC (setTC p i v) i = some v := by
  rw [setTC_of_lt p i v h, getTC]
  exact getD_set_self p.tcs i (some v) none h

theorem getTC_setTC_ne (p : PrimUV) (i j : ℕ) (v : List ℚ) (h : i < p.tcs.length)
    (hj : j ≠ i) : getTC (setTC p i v) j = getTC p j := by
  rw [setTC_of_lt p i v h, getTC, getTC]
  exact getD_set_ne p.tcs i j (some v) none hj

theorem setTC_length (p : PrimUV) (i : ℕ) (v : List ℚ) (h : i < p.tcs.length) :
    (setTC p i v).tcs.length = p.tcs.length := by
  rw [setTC_of_lt p i v h]
  exact List.length_set p.tcs i (some v)

theorem getTC_lt (p : PrimUV) (i : ℕ) (w : List ℚ) (h : getTC p i = some w) :
    i < p.tcs.length := by
  by_contra hlt
  rw [getTC, List.getD_eq_default _ _ (by omega)] at h
  cases h

/-- C8 (amended): on a primitive whose material carries no texture transform
(in particular, one whose transform was baked and cleared by a first run), a
remap run performs no transform-bake step — no texcoord set is allocated, the
info's transform stays clear, and every set other than the active one and
TEXCOORD_0 is untouched — but the rect remap formula IS applied again: the
run writes `remapPairs` of the current values into TEXCOORD_0, so a second
run changes already-remapped values whenever the rect is a proper sub-rect of
the atlas. -/
theorem c8_second_remap_amended (trig : ℚ → ℚ × ℚ) (rect : PlacedRect) (aw ah : ℕ)
    (prim : PrimUV) (info : MatChanInfo) (w : List ℚ)
    (ht : info.transform = none) (hw : getTC prim info.texCoord = some w) :
    (remapPrimitive trig rect aw ah prim info).2.transform = none ∧
    (remapPrimitive trig rect aw ah prim info).2.texCoord = 0 ∧
    getTC (remapPrimitive trig rect aw ah prim info).1 0
      = some (remapPairs ((rect.width : ℚ) / (aw : ℚ)) ((rect.height : ℚ) / (ah : ℚ))
          ((rect.x : ℚ) / (aw : ℚ)) ((rect.y : ℚ) / (ah : ℚ)) w) ∧
    (remapPrimitive trig rect aw ah prim info).1.tcs.length = prim.tcs.length ∧
    (∀ j, j ≠ 0 → j ≠ info.texCoord →
      getTC (remapPrimitive trig rect aw ah prim info).1 j = getTC prim j) := by
  have hlt : info.texCoord < prim.tcs.length := getTC_lt prim info.texCoord w hw
  have hrun : remapPrimitive trig rect aw ah prim info
      = (setTC (setTC (setTC prim info.texCoord w) info.texCoord
            (remapPairs ((rect.width : ℚ) / (aw : ℚ)) ((rect.height : ℚ) / (ah : ℚ))
              ((rect.x : ℚ) / (aw : ℚ)) ((rect.y : ℚ) / (ah : ℚ)) w)) 0
            (remapPairs ((rect.width : ℚ) / (aw : ℚ)) ((rect.height : ℚ) / (ah : ℚ))
              ((rect.x : ℚ) / (aw : ℚ)) ((rect.y : ℚ) / (ah : ℚ)) w),
         ⟨0, none⟩) := by
    simp only [remapPrimitive, hw, ht]
  rw [hrun]
  have hlen1 : (setTC prim info.texCoord w).tcs.length = prim.tcs.length :=
    setTC_length prim info.texCoord w hlt
  have hlt1 : info.texCoord < (setTC prim info.texCoord w).tcs.length := by omega
  have hlen2 : (setTC (setTC prim info.texCoord w) info.texCoord
      (remapPairs ((rect.width : ℚ) / (aw : ℚ)) ((rect.height : ℚ) / (ah : ℚ))
        ((rect.x : ℚ) / (aw : ℚ)) ((rect.y : ℚ) / (ah : ℚ)) w)).tcs.length
      = prim.tcs.length := by
    rw [setTC_length _ _ _ hlt1, hlen1]
  have hlt2 : 0 < (setTC (setTC prim info.texCoord w) info.texCoord
      (remapPairs ((rect.width : ℚ) / (aw : ℚ)) ((rect.height : ℚ) / (ah : ℚ))
        ((rect.x : ℚ) / (aw : ℚ)) ((rect.y : ℚ) / (ah : ℚ)) w)).tcs.length := by omega
  refine ⟨rfl, rfl, getTC_setTC_self _ _ _ hlt2, ?_, ?_⟩
  · rw [setTC_length _ _ _ hlt2, hlen2]
  · intro j hj0 hjt
    rw [getTC_setTC_ne _ _ _ _ hlt2 hj0, getTC_setTC_ne _ _ _ _ hlt1 hjt,
      getTC_setTC_ne _ _ _ _ hlt hjt]

/-- C8 (counterexample): a second remap run on the same transform-free
primitive DOES change the UV values already remapped into texcoord-set 0: the
rect map is applied twice (`0 ↦ 1/4 ↦ 5/16` for rect `{x:256, w:256}` in a
1024-wide atlas). -/
theorem c8_idempotence_counterexample :
    getTC (remapPrimitive trigDemo rectDemo 1024 1024 ⟨[some [0, 0]]⟩ ⟨0, none⟩).1 0
      = some [1 / 4, 0] ∧
    getTC (remapPrimitive trigDemo rectDemo 1024 1024
        (remapPrimitive trigDemo rectDemo 1024 1024 ⟨[some [0, 0]]⟩ ⟨0, none⟩).1
        (remapPrimitive trigDemo rectDemo 1024 1024 ⟨[some [0, 0]]⟩ ⟨0, none⟩).2).1 0
      = some [5 / 16, 0] ∧
    (5 / 16 : ℚ) ≠ 1 / 4 := by
  have e1 : remapPrimitive trigDemo rectDemo 1024 1024 ⟨[some [0, 0]]⟩ ⟨0, none⟩
      = (⟨[some [1 / 4, 0]]⟩, ⟨0, none⟩) := by
    simp only [remapPrimitive, getTC, setTC, rectDemo]
    norm_num [remapPairs, List.getD]
  have e2 : remapPrimitive trigDemo rectDemo 1024 1024 ⟨[some [1 / 4, 0]]⟩ ⟨0, none⟩
      = (⟨[some [5 / 16, 0]]⟩, ⟨0, none⟩) := by
    simp only [remapPrimitive, getTC, setTC, rectDemo]
    norm_num [remapPairs, List.getD]
  refine ⟨?_, ?_, by norm_num⟩
  · rw [e1]
    norm_num [getTC, List.getD]
  · rw [e1]
    show getTC (remapPrimitive trigDemo rectDemo 1024 1024 ⟨[some [1 / 4, 0]]⟩ ⟨0, none⟩).1 0
      = some [5 / 16, 0]
    rw [e2]
    norm_num [getTC, List.getD]

/-- C8 witness: the amended theorem at the already-remapped concrete
primitive. -/
theorem c8_second_remap_witness :
    ((⟨0, none⟩ : MatChanInfo).transform = none) ∧
    getTC ⟨[some [1 / 4, 0]]⟩ (⟨0, none⟩ : MatChanInfo).texCoord = some [1 / 4, 0] ∧
    (remapPrimitive trigDemo rectDemo 1024 1024 ⟨[some [1 / 4, 0]]⟩ ⟨0, none⟩).2.transform
      = none ∧
    (remapPrimitive trigDemo rectDemo 1024 1024
        ⟨[some [1 / 4, 0]]⟩ ⟨0, none⟩).1.tcs.length = 1 := by
  have hw : getTC (⟨[some [1 / 4, 0]]⟩ : PrimUV) (⟨0, none⟩ : MatChanInfo).texCoord
      = some [1 / 4, 0] := rfl
  obtain ⟨h1, -, -, h4, -⟩ :=
    c8_second_remap_amended trigDemo rectDemo 1024 1024 ⟨[some [1 / 4, 0]]⟩ ⟨0, none⟩
      [1 / 4, 0] rfl hw
  exact ⟨rfl, hw, h1, h4⟩

/-! ### Power-of-two loop lemmas -/

theorem pow2GrowLoop_pow2 (n : ℕ) : ∀ (fuel k : ℕ),
    ∃ j, pow2GrowLoop n fuel (2 ^ k) = 2 ^ j := by
  intro fuel
  induction fuel with
  | zero => intro k; exact ⟨k, rfl⟩
  | succ m ih =>
    intro k
    rw [pow2GrowLoop]
    split_ifs
    · rw [show (2 : ℕ) ^ k * 2 = 2 ^ (k + 1) from by rw [pow_succ]]
      exact ih (k + 1)
    · exact ⟨k, rfl⟩

theorem pow2GrowLoop_ge (n : ℕ) : ∀ (fuel p : ℕ), n ≤ 2 ^ fuel * p →
    n ≤ pow2GrowLoop n fuel p := by
  intro fuel
  induction fuel with
  | zero => intro p h; rw [pow2GrowLoop]; simpa using h
  | succ m ih =>
    intro p h
    rw [pow2GrowLoop]
    split_ifs with hc
    · refine ih (p * 2) ?_
      have he : 2 ^ (m + 1) * p = 2 ^ m * (p * 2) := by ring
      omega
    · omega

theorem pow2GrowLoop_fix : ∀ (fuel j k : ℕ), j ≤ k → 2 ^ k ≤ 2 ^ fuel * 2 ^ j →
    pow2GrowLoop (2 ^ k) fuel (2 ^ j) = 2 ^ k := by
  intro fuel
  induction fuel with
  | zero =>
    intro j k hjk h
    rw [pow2GrowLoop]
    rw [pow_zero, one_mul] at h
    have hkj : k ≤ j := (Nat.pow_le_pow_iff_right (by norm_num)).mp h
    have : j = k := by omega
    rw [this]
  | succ m ih =>
    intro j k hjk h
    rw [pow2GrowLoop]
    split_ifs with hc
    · have hjk' : j < k := by
        rcases Nat.lt_or_ge j k with h1 | h1
        · exact h1
        · have : j = k := by omega
          subst this
          exact absurd hc (lt_irrefl _)
      rw [show (2 : ℕ) ^ j * 2 = 2 ^ (j + 1) from by rw [pow_succ]]
      refine ih (j + 1) k (by omega) ?_
      have he : 2 ^ (m + 1) * 2 ^ j = 2 ^ m * 2 ^ (j + 1) := by ring
      omega
    · have h1 : (2 : ℕ) ^ j ≤ 2 ^ k := Nat.pow_le_pow_right (by norm_num) hjk
      omega

theorem nextPow2_ge (n : ℕ) : n ≤ nextPow2 n := by
  rw [nextPow2]
  refine pow2GrowLoop_ge n n 1 ?_
  have := Nat.lt_two_pow n
  omega

theorem nextPow2_pow2 (n : ℕ) : ∃ j, nextPow2 n = 2 ^ j := by
  rw [nextPow2, show (1 : ℕ) = 2 ^ 0 from rfl]
  exact pow2GrowLoop_pow2 n n 0

theorem nextPow2Ceil_fix (k : ℕ) : nextPow2Ceil (2 ^ k) = 2 ^ k := by
  rw [nextPow2Ceil, show (1 : ℕ) = 2 ^ 0 from rfl]
  refine pow2GrowLoop_fix (2 ^ k) 0 k (Nat.zero_le k) ?_
  rw [pow_zero, mul_one]
  exact Nat.pow_le_pow_right (by norm_num) (Nat.lt_two_pow k).le

/-! ### Pack-loop analysis -/

theorem packLoop_ok (packFn : ℕ → List PackItem → List Bin) (rects : List PackItem)
    (maxSize maxBins : ℕ) : ∀ (fuel size s : ℕ) (bins : List Bin),
    packLoop packFn rects maxSize maxBins fuel size = .ok (s, bins) →
    s ≤ maxSize ∧ size ≤ s ∧ (∃ t, s = size * 2 ^ t) ∧ bins = packFn s rects := by
  intro fuel
  induction fuel with
  | zero =>
    intro size s bins h
    rw [packLoop] at h
    cases h
  | succ n ih =>
    intro size s bins h
    simp only [packLoop] at h
    split_ifs at h with h1 h2
    · injection h with h'
      injection h' with e1 e2
      subst e1
      subst e2
      exact ⟨h1, le_rfl, ⟨0, by ring⟩, rfl⟩
    · obtain ⟨ha, hb, ⟨t, ht⟩, hc⟩ := ih (size * 2) s bins h
      exact ⟨ha, by omega, ⟨t + 1, by rw [ht]; ring⟩, hc⟩

/-- The forced-square fold turns every bin that fits in a power-of-two
`atlasSize` into exactly an `atlasSize` square and leaves `atlasSize`
unchanged. -/
theorem forceSquare_all (size : ℕ) (hpow : ∃ k, size = 2 ^ k) :
    ∀ (bins : List Bin) (acc : List Bin),
      (∀ b ∈ acc, b.width = size ∧ b.height = size) →
      (∀ b ∈ bins, b.width ≤ size ∧ b.height ≤ size) →
      (∀ b ∈ (bins.foldl forceSquareStep (acc, size)).1,
        b.width = size ∧ b.height = size) ∧
      (bins.foldl forceSquareStep (acc, size)).2 = size := by
  obtain ⟨k, rfl⟩ := hpow
  intro bins
  induction bins with
  | nil => intro acc hacc _; exact ⟨hacc, rfl⟩
  | cons bin bins ih =>
    intro acc hacc hb
    have hbin := hb bin (List.mem_cons_self _ _)
    have hsq : forceSquareStep (acc, 2 ^ k) bin
        = (acc ++ [{ bin with width := 2 ^ k, height := 2 ^ k }], 2 ^ k) := by
      rw [forceSquareStep]
      have e1 : max (max (if bin.width = 0 then 2 ^ k else bin.width)
          (if bin.height = 0 then 2 ^ k else bin.height)) (2 ^ k) = 2 ^ k := by
        split_ifs <;> omega
      rw [e1, nextPow2Ceil_fix]
    rw [List.foldl_cons, hsq]
    refine ih (acc ++ [{ bin with width := 2 ^ k, height := 2 ^ k }]) ?_
      (fun b hbm => hb b (List.mem_cons_of_mem _ hbm))
    intro b hbm
    rcases List.mem_append.mp hbm with h1 | h1
    · exact hacc b h1
    · simp only [List.mem_singleton] at h1
      subst h1
      exact ⟨rfl, rfl⟩

/-- C9: every bin out of a packing pass (after the forced-square step) and
every bin of a cross-channel reuse pass is square, has power-of-two
dimensions, and lies within `[256, maxSize]` — given the MaxRects library's
contract that it packs within the requested `size × size` canvas, and, for
the reuse pass, the canonical atlas dimension it replays (a power of two in
`[256, maxSize]`, as the canonical pass guarantees). -/
theorem c9_bins_square_pow2 (packFn : ℕ → List PackItem → List Bin)
    (hpack : ∀ (size : ℕ) (items : List PackItem), ∀ b ∈ packFn size items,
      b.width ≤ size ∧ b.height ≤ size)
    (rects : List PackItem) (maxSize maxBins size : ℕ) (bins : List Bin)
    (hok : packIntoAtlas packFn rects maxSize maxBins = .ok (size, bins))
    (s : ℕ) (rcts : List PlacedRect) (k : ℕ) (hspow : s = 2 ^ k)
    (hs256 : 256 ≤ s) (hsmax : s ≤ maxSize) :
    (∀ b ∈ forceSquare bins size,
      b.width = b.height ∧ (∃ j, b.width = 2 ^ j) ∧ 256 ≤ b.width ∧ b.width ≤ maxSize) ∧
    (∀ b ∈ forceSquare (reuseBins s rcts).2 (reuseBins s rcts).1,
      b.width = b.height ∧ (∃ j, b.width = 2 ^ j) ∧ 256 ≤ b.width ∧ b.width ≤ maxSize) := by
  constructor
  · simp only [packIntoAtlas] at hok
    obtain ⟨hmax, hge, ⟨t, ht⟩, hbins⟩ := packLoop_ok packFn rects maxSize maxBins _ _ _ _ hok
    have hstart := nextPow2_ge (max (rects.foldl
      (fun m r => max m (max r.width r.height)) 1) 256)
    obtain ⟨j, hj⟩ := nextPow2_pow2 (max (rects.foldl
      (fun m r => max m (max r.width r.height)) 1) 256)
    have hsize_pow : ∃ jj, size = 2 ^ jj := ⟨j + t, by rw [ht, hj, ← pow_add]⟩
    have hsize256 : 256 ≤ size := by omega
    have hdims : ∀ b ∈ bins, b.width ≤ size ∧ b.height ≤ size := by
      intro b hb
      exact hpack size rects b (by rwa [← hbins])
    obtain ⟨hall, -⟩ := forceSquare_all size hsize_pow bins [] (by simp) hdims
    intro b hb
    obtain ⟨hbw, hbh⟩ := hall b hb
    exact ⟨by rw [hbw, hbh], by rw [hbw]; exact hsize_pow, by omega, by omega⟩
  · have hmaxs : max s 256 = s := by omega
    have hfix : nextPow2Ceil (max s 256) = s := by
      rw [hmaxs, hspow, nextPow2Ceil_fix]
    intro b hb
    simp only [reuseBins, hfix] at hb
    obtain ⟨hall, -⟩ := forceSquare_all s ⟨k, hspow⟩ [⟨s, s, rcts⟩] [] (by simp)
      (by intro b hbm; simp only [List.mem_singleton] at hbm; subst hbm; exact ⟨le_rfl, le_rfl⟩)
    obtain ⟨hbw, hbh⟩ := hall b hb
    exact ⟨by rw [hbw, hbh], by rw [hbw]; exact ⟨k, hspow⟩, by omega, by omega⟩

/-- C9 witness: a 300×300 texture at maxSize 4096 packs into a single
512×512 bin, and the bin theorem's conclusions hold for it concretely. -/
theorem c9_bins_witness :
    packIntoAtlas packFnDemo [⟨0, 300, 300⟩] 4096 1 = .ok (512, [⟨512, 512, []⟩]) ∧
    (⟨512, 512, []⟩ : Bin) ∈ forceSquare [⟨512, 512, []⟩] 512 ∧
    (512 : ℕ) = 512 ∧ (∃ j, (512 : ℕ) = 2 ^ j) ∧ 256 ≤ (512 : ℕ) ∧ (512 : ℕ) ≤ 4096 := by
  have hok : packIntoAtlas packFnDemo [⟨0, 300, 300⟩] 4096 1
      = .ok (512, [⟨512, 512, []⟩]) := by rfl
  have hforce : forceSquare [⟨512, 512, []⟩] 512 = [⟨512, 512, []⟩] := by rfl
  have hpack : ∀ (size : ℕ) (items : List PackItem), ∀ b ∈ packFnDemo size items,
      b.width ≤ size ∧ b.height ≤ size := by
    intro size items b hb
    simp only [packFnDemo, List.mem_singleton] at hb
    subst hb
    exact ⟨le_rfl, le_rfl⟩
  have hmem : (⟨512, 512, []⟩ : Bin) ∈ forceSquare [⟨512, 512, []⟩] 512 := by
    rw [hforce]
    exact List.mem_singleton.mpr rfl
  have hb := (c9_bins_square_pow2 packFnDemo hpack [⟨0, 300, 300⟩] 4096 1 512
      [⟨512, 512, []⟩] hok 512 [] 9 (by norm_num) (by norm_num) (by norm_num)).1
      ⟨512, 512, []⟩ hmem
  exact ⟨hok, hmem, hb.1, hb.2.1, hb.2.2.1, hb.2.2.2⟩

end GlbAtlas
